import Mathlib

/-!
Verification development for the Solana arbitrage trading system
(detection → risk gate → execution pipeline, plus the dashboard API client).

The dashboard API client (`fetchApi`, `api.getOpportunities`) is embedded
directly from `dashboard` TypeScript sources.  The Rust core (risk gate,
circuit breaker, detectors, execution engine) is not part of the shipped
sources, so those components are modelled from the specification document,
as marked on each definition.
-/

namespace Arb

/-- Venue identifiers, from the dashboard type declarations
(`DexType = 'raydium' | 'orca' | 'jupiter'`). -/
inductive DexType
  | raydium
  | orca
  | jupiter
deriving DecidableEq, Repr

/-- Modelled from the spec: TokenPair is an ordered pair (base, quote) of
token identifiers, an immutable value. -/
structure TokenPair where
  base : String
  quote : String
deriving DecidableEq, Repr

/-- Modelled from the spec: PriceQuote carries venue, pair, bid/ask/mid as
fixed-point decimals (embedded as rationals), and an observation timestamp. -/
structure PriceQuote where
  dex : DexType
  pair : TokenPair
  bid : ℚ
  ask : ℚ
  mid : ℚ
  timestamp : ℕ
deriving DecidableEq, Repr

/-- Modelled from the spec: outcome component of a TradeResult,
{Confirmed, Failed(reason), Simulated}. -/
inductive TradeOutcome
  | confirmed
  | failed (reason : String)
  | simulated
deriving DecidableEq, Repr

/-- Modelled from the spec: TradeResult records opportunity id, the pair it
traded, the outcome, and realized profit/loss. -/
structure TradeResult where
  oppId : ℕ
  pair : TokenPair
  outcome : TradeOutcome
  realized : ℚ
deriving DecidableEq, Repr

/-- Modelled from the spec: ArbitrageOpportunity as consumed by the risk
gate — pair, venues, prices, gross/net profit percentages, optional USD
estimate and recommended size, detection timestamp, optional expiry. -/
structure ArbOpportunity where
  id : ℕ
  pair : TokenPair
  buyDex : DexType
  sellDex : DexType
  buyPrice : ℚ
  sellPrice : ℚ
  grossProfitPct : ℚ
  netProfitPct : ℚ
  estimatedProfitUsd : Option ℚ
  recommendedSize : Option ℚ
  detectedAt : ℕ
  expiredAt : Option ℕ
deriving DecidableEq, Repr

/-- Modelled from the spec: RiskDecision outcome enum
{Approved(size), Reduced(size), Rejected(reason)}. -/
inductive RiskDecision
  | approved (size : ℚ)
  | reduced (size : ℚ)
  | rejected (reason : String)
deriving DecidableEq, Repr

/-- Modelled from the spec: CircuitBreakerState =
{Closed, Open(reason, opened-at), HalfOpen(probe count)}.  `opened` stands
for the Open state (`open` is reserved). -/
inductive CircuitBreakerState
  | closed
  | opened (reason : String) (openedAt : ℕ)
  | halfOpen (probeCount : ℕ)
deriving DecidableEq, Repr

/-- Modelled from the spec: the risk configuration snapshot
{min-profit threshold, position bounds, max_daily_loss,
max_consecutive_losses, circuit_breaker_cooldown, per-pair cooldown}.
The VaR trigger of the breaker is outside every claim and is not modelled. -/
structure RiskConfig where
  maxConsecutiveLosses : ℕ
  cooldownTicks : ℕ
  pairCooldownTicks : ℕ
  maxDailyLoss : ℚ
  maxPositionSize : ℚ
  minPositionSize : ℚ
  sizePerProfitPct : ℚ
deriving DecidableEq, Repr

/-- Modelled from the spec: DailyLedger — running realized P&L, the
consecutive-loss counter, and the per-pair cooldown expiry map. -/
structure DailyLedger where
  realizedPnl : ℚ
  consecutiveLosses : ℕ
  cooldowns : List (TokenPair × ℕ)
deriving DecidableEq, Repr

/-- Modelled from the spec: a pair is on cooldown while `now` is before its
recorded expiry tick. -/
def pairOnCooldown (l : DailyLedger) (pair : TokenPair) (now : ℕ) : Bool :=
  l.cooldowns.any (fun c => c.1 == pair && decide (now < c.2))

/-- Modelled from the spec: recommended size is proportional to net profit
percentage, bounded above by the configured maximum; below the minimum
viable size the opportunity is Rejected, not Reduced to zero; a size capped
under the detector's recommendation yields Reduced. -/
def sizeDecision (cfg : RiskConfig) (opp : ArbOpportunity) : RiskDecision :=
  let s := min cfg.maxPositionSize (opp.netProfitPct * cfg.sizePerProfitPct)
  if s < cfg.minPositionSize then .rejected ("below minimum viable size")
  else
    match opp.recommendedSize with
    | some r => if s < r then .reduced s else .approved s
    | none => .approved s

/-- Modelled from the spec: the Risk Gate decision contract
`evaluate(opportunity, ledger, breaker_state) -> RiskDecision`, a pure
function of current state.  While the breaker is Open all trades are
rejected (reason "circuit breaker open"); HalfOpen permits a single probe;
Closed checks the per-pair cooldown and the daily loss limit before
sizing. -/
def evaluate (cfg : RiskConfig) (now : ℕ) (opp : ArbOpportunity)
    (ledger : DailyLedger) (bs : CircuitBreakerState) : RiskDecision :=
  match bs with
  | .opened _ _ => .rejected ("circuit breaker open")
  | .halfOpen p =>
      if p == 0 then sizeDecision cfg opp
      else .rejected ("half-open probe already in flight")
  | .closed =>
      if pairOnCooldown ledger opp.pair now then .rejected ("pair on cooldown")
      else if ledger.realizedPnl ≤ -cfg.maxDailyLoss then
        .rejected ("daily loss limit reached")
      else sizeDecision cfg opp

/-- Modelled from the spec: the Execution Engine's outcome callback into the
Risk Gate's ledger and breaker.  A Confirmed result resets the
consecutive-loss counter and closes a half-open breaker; a Failed result
increments the counter, blacklists the pair for the per-pair cooldown, and
opens the breaker from Closed once losses reach `max_consecutive_losses`
(or the daily loss limit is breached) and from HalfOpen immediately,
restarting the cooldown at `now`.  Simulated results leave state alone. -/
def recordTradeResult (cfg : RiskConfig) (now : ℕ) (ledger : DailyLedger)
    (bs : CircuitBreakerState) (tr : TradeResult) :
    DailyLedger × CircuitBreakerState :=
  match tr.outcome with
  | .confirmed =>
      let l := { ledger with
        realizedPnl := ledger.realizedPnl + tr.realized
        consecutiveLosses := 0 }
      match bs with
      | .halfOpen _ => (l, .closed)
      | s => (l, s)
  | .failed r =>
      let l := { ledger with
        realizedPnl := ledger.realizedPnl + tr.realized
        consecutiveLosses := ledger.consecutiveLosses + 1
        cooldowns := (tr.pair, now + cfg.pairCooldownTicks) :: ledger.cooldowns }
      match bs with
      | .closed =>
          if cfg.maxConsecutiveLosses ≤ ledger.consecutiveLosses + 1
              ∨ ledger.realizedPnl + tr.realized ≤ -cfg.maxDailyLoss
          then (l, .opened r now) else (l, .closed)
      | .halfOpen _ => (l, .opened r now)
      | .opened r0 t0 => (l, .opened r0 t0)
  | .simulated => (ledger, bs)

/-- Modelled from the spec: Open transitions to HalfOpen after the
configured cooldown elapses; checked at each tick. -/
def tickCooldown (cfg : RiskConfig) (now : ℕ) :
    CircuitBreakerState → CircuitBreakerState
  | .opened r t => if t + cfg.cooldownTicks ≤ now then .halfOpen 0 else .opened r t
  | s => s

/-- Modelled from the spec: in HalfOpen a single probe trade is permitted
(probe count still zero); Closed permits trades; Open permits none. -/
def probePermitted : CircuitBreakerState → Bool
  | .closed => true
  | .opened _ _ => false
  | .halfOpen p => p == 0

/-- Modelled from the spec: dispatching the single permitted probe
increments the half-open probe count. -/
def startProbe : CircuitBreakerState → CircuitBreakerState
  | .halfOpen p => .halfOpen (p + 1)
  | s => s

/-- Modelled from the spec: feed a sequence of trade results through the
Risk Gate's outcome callback. -/
def afterResults (cfg : RiskConfig) (now : ℕ)
    (start : DailyLedger × CircuitBreakerState) (rs : List TradeResult) :
    DailyLedger × CircuitBreakerState :=
  rs.foldl (fun st tr => recordTradeResult cfg now st.1 st.2 tr) start

/-- The SOL/USDC pair of the scenarios. -/
def solUsdc : TokenPair := ⟨("SOL"), ("USDC")⟩

/-- Scenario configuration: max_consecutive_losses = 3, cooldown 10 ticks,
per-pair cooldown 5 ticks, daily loss limit 1000, sizes 1..100. -/
def scenarioCfg : RiskConfig := ⟨3, 10, 5, 1000, 100, 1, 10⟩

/-- Scenario: three consecutive Failed trade results. -/
def scenarioFailures : List TradeResult :=
  [⟨1, solUsdc, .failed ("swap failed"), -1⟩,
   ⟨2, solUsdc, .failed ("swap failed"), -1⟩,
   ⟨3, solUsdc, .failed ("swap failed"), -1⟩]

/-- Scenario: the ledger and breaker state after the three failures are
recorded at tick 7, starting from a fresh ledger and a Closed breaker. -/
def scenarioState : DailyLedger × CircuitBreakerState :=
  afterResults scenarioCfg 7 (⟨0, 0, []⟩, .closed) scenarioFailures

/-! ## Opportunity lifecycle (pipeline) -/

/-- Whether a risk decision permits execution: Approved and Reduced do,
Rejected does not. -/
def RiskDecision.allowsExecution : RiskDecision → Bool
  | .approved _ => true
  | .reduced _ => true
  | .rejected _ => false

/-- Modelled from the spec: the observable pipeline events of one
opportunity — detection, the single risk decision, and the terminal
execution outcome. -/
inductive PipelineEvent
  | detect (oid : ℕ)
  | decide (oid : ℕ) (d : RiskDecision)
  | execute (oid : ℕ) (o : TradeOutcome)
deriving DecidableEq, Repr

/-- The opportunity id an event concerns. -/
def PipelineEvent.oidOf : PipelineEvent → ℕ
  | .detect i => i
  | .decide i _ => i
  | .execute i _ => i

/-- Modelled from the spec: lifecycle phase of one opportunity,
Detected → Decided → Resolved. -/
inductive OppPhase
  | detectedPhase
  | decidedPhase (d : RiskDecision)
  | resolvedPhase (d : RiskDecision) (o : TradeOutcome)
deriving DecidableEq, Repr

/-- Pipeline state: the phase of every opportunity seen so far, keyed by
opportunity id. -/
abbrev PipelineState := List (ℕ × OppPhase)

/-- Replace the phase recorded for `oid` (no entry is added if absent). -/
def setPhase : PipelineState → ℕ → OppPhase → PipelineState
  | [], _, _ => []
  | (k, v) :: rest, oid, p =>
      if k = oid then (k, p) :: setPhase rest oid p
      else (k, v) :: setPhase rest oid p

/-- Modelled from the spec: one pipeline step.  An opportunity may only be
detected once (ids are unique), decided only from Detected, and executed
only from a Decided phase whose decision was Approved or Reduced; the
"resolved" marker prevents double execution.  Any other event order is
refused. -/
def applyEvent (s : PipelineState) : PipelineEvent → Option PipelineState
  | .detect oid =>
      match s.lookup oid with
      | none => some ((oid, .detectedPhase) :: s)
      | some _ => none
  | .decide oid d =>
      match s.lookup oid with
      | some .detectedPhase => some (setPhase s oid (.decidedPhase d))
      | _ => none
  | .execute oid o =>
      match s.lookup oid with
      | some (.decidedPhase d) =>
          if d.allowsExecution then some (setPhase s oid (.resolvedPhase d o))
          else none
      | _ => none

/-- Run the pipeline from a given state over a trace of events, refusing
the whole trace if any step is refused. -/
def runFrom (s : PipelineState) : List PipelineEvent → Option PipelineState
  | [] => some s
  | e :: es =>
      match applyEvent s e with
      | some s2 => runFrom s2 es
      | none => none

/-- Run the pipeline from the empty initial state. -/
def runPipeline (es : List PipelineEvent) : Option PipelineState :=
  runFrom [] es

/-- Whether an event is an execution of opportunity `oid`. -/
def isExecEvent (oid : ℕ) : PipelineEvent → Bool
  | .execute i _ => i == oid
  | _ => false

/-- Whether an event is a risk decision for opportunity `oid`. -/
def isDecideEvent (oid : ℕ) : PipelineEvent → Bool
  | .decide i _ => i == oid
  | _ => false

/-- Number of executions of `oid` in a trace. -/
def countExec (tr : List PipelineEvent) (oid : ℕ) : ℕ :=
  tr.countP (isExecEvent oid)

/-- Number of risk decisions for `oid` in a trace. -/
def countDecide (tr : List PipelineEvent) (oid : ℕ) : ℕ :=
  tr.countP (isDecideEvent oid)

/-- Whether a recorded phase is the terminal (resolved) one. -/
def resolvedB : Option OppPhase → Bool
  | some (.resolvedPhase _ _) => true
  | _ => false

/-- Whether a recorded phase is at or past the decision step. -/
def decidedOrResolvedB : Option OppPhase → Bool
  | some (.decidedPhase _) => true
  | some (.resolvedPhase _ _) => true
  | _ => false

/-- A demonstration trace: one opportunity detected, approved and executed. -/
def demoTrace : List PipelineEvent :=
  [.detect 1, .decide 1 (.approved 10), .execute 1 .confirmed]

/-- The pipeline state the demonstration trace ends in. -/
def demoFinal : PipelineState :=
  [(1, .resolvedPhase (.approved 10) .confirmed)]

/-! ## Two-venue spread detector -/

/-- A two-venue spread opportunity as emitted by the detector. -/
structure SpreadOpp where
  buyDex : DexType
  sellDex : DexType
  buyPrice : ℚ
  sellPrice : ℚ
  grossPct : ℚ
  netPct : ℚ
deriving DecidableEq, Repr

/-- Modelled from the spec scenario (quotes Raydium SOL/USDC bid 100.1 /
Orca ask 101.0, fees 0.25% each venue ⇒ buy on Raydium, sell on Orca):
a candidate spread buys at the buy venue's bid, sells at the sell venue's
ask, takes gross profit as the percentage gain over the buy price and net
profit as gross minus both venues' fee percentages, and is emitted only
for distinct venues quoting the same pair with strictly positive net. -/
def spreadOpportunity (fee : DexType → ℚ) (qa qb : PriceQuote) : Option SpreadOpp :=
  if qa.pair = qb.pair ∧ qa.dex ≠ qb.dex then
    let gross := (qb.ask - qa.bid) / qa.bid * 100
    let net := gross - fee qa.dex - fee qb.dex
    if 0 < net then some ⟨qa.dex, qb.dex, qa.bid, qb.ask, gross, net⟩ else none
  else none

/-- Modelled from the spec: the detector examines every ordered pair of
current quotes and emits each profitable spread. -/
def detectSpreads (fee : DexType → ℚ) (qs : List PriceQuote) : List SpreadOpp :=
  qs.flatMap (fun qa => qs.filterMap (fun qb => spreadOpportunity fee qa qb))

/-- Scenario quote: Raydium SOL/USDC at 100.1. -/
def rayQuote : PriceQuote := ⟨.raydium, solUsdc, 1001/10, 1001/10, 1001/10, 0⟩

/-- Scenario quote: Orca SOL/USDC at 101.0. -/
def orcaQuote : PriceQuote := ⟨.orca, solUsdc, 101, 101, 101, 0⟩

/-- Scenario fee schedule: a 0.25% trading fee on each venue. -/
def quarterFee : DexType → ℚ := fun _ => 1/4

/-! ## Execution engine: pre-submission simulation -/

/-- Modelled from the spec: the result reported by simulating the fully
assembled transaction — either the compute units it consumed, or a
simulation failure. -/
inductive SimulationReport
  | simOk (unitsConsumed : ℕ)
  | simErr (message : String)
deriving DecidableEq, Repr

/-- The network's hard per-transaction compute-unit cap used by the
pre-submission check (the execution engine rejects above 1,400,000 CU). -/
def computeUnitCap : ℕ := 1400000

/-- Modelled from the spec: pre-submission validation.  The assembled
transaction is simulated before sending; if simulation reports a failure,
or the simulated compute-unit consumption exceeds the hard cap, execution
returns Failed (reason "compute unit overflow" for the cap breach) and the
transaction is not submitted; otherwise it is submitted and the submission
outcome is returned.  The second component records whether the transaction
was submitted. -/
def validateAndSubmit (cap : ℕ) (sim : SimulationReport)
    (submission : TradeOutcome) : TradeOutcome × Bool :=
  match sim with
  | .simErr m => (.failed ("simulation failed: " ++ m), false)
  | .simOk u =>
      if cap < u then (.failed ("compute unit overflow"), false)
      else (submission, true)

/-! ## Execution engine: submission retry policy -/

/-- Modelled from the spec error taxonomy: transient/retryable failures
(timeout, network unavailability, rate limit) versus non-retryable ones
(simulation failure, insufficient funds, slippage exceeded). -/
inductive ErrorKind
  | timeout
  | networkUnavailable
  | rateLimited
  | simulationFailed
  | insufficientFunds
  | slippageExceeded
deriving DecidableEq, Repr

/-- Modelled from the spec: only timeouts and transient
network/rate-limit errors are classified retryable. -/
def ErrorKind.isRetryable : ErrorKind → Bool
  | .timeout => true
  | .networkUnavailable => true
  | .rateLimited => true
  | .simulationFailed => false
  | .insufficientFunds => false
  | .slippageExceeded => false

/-- The recorded reason string for a classified failure. -/
def ErrorKind.reasonText : ErrorKind → String
  | .timeout => "timeout"
  | .networkUnavailable => "network unavailable"
  | .rateLimited => "rate limited"
  | .simulationFailed => "simulation failed"
  | .insufficientFunds => "insufficient funds"
  | .slippageExceeded => "slippage exceeded"

/-- Outcome of one submission attempt against the network. -/
inductive AttemptOutcome
  | success
  | failure (e : ErrorKind)
deriving DecidableEq, Repr

/-- What a submission run produced: the final trade outcome, the number of
attempts actually made, and the backoff delays slept between attempts. -/
structure SubmitTrace where
  result : TradeOutcome
  attemptsUsed : ℕ
  delays : List ℕ
deriving DecidableEq, Repr

/-- Modelled from the spec: bounded-retry submission loop with exponential
backoff.  `att k` is the outcome of attempt number `k`; `remaining` bounds
the attempts still allowed.  A success confirms immediately; a
non-retryable failure terminates immediately with its recorded reason;
a retryable failure is retried after a delay of `base * 2 ^ k` while
attempts remain, and surfaces as Failed once the budget is exhausted. -/
def submitGo (att : ℕ → AttemptOutcome) (base : ℕ) :
    (k : ℕ) → (remaining : ℕ) → SubmitTrace
  | _, 0 => ⟨.failed ("max attempts exceeded"), 0, []⟩
  | k, remaining + 1 =>
      match att k with
      | .success => ⟨.confirmed, 1, []⟩
      | .failure e =>
          if e.isRetryable && decide (0 < remaining) then
            let t := submitGo att base (k + 1) remaining
            ⟨t.result, t.attemptsUsed + 1, base * 2 ^ k :: t.delays⟩
          else ⟨.failed (e.reasonText), 1, []⟩

/-- Modelled from the spec: the bounded-attempt submission policy
(operation, max_attempts, base_delay). -/
structure RetryPolicy where
  maxAttempts : ℕ
  baseDelay : ℕ
deriving DecidableEq, Repr

/-- Submit with the configured retry policy, starting from attempt 0. -/
def submitWithRetry (att : ℕ → AttemptOutcome) (p : RetryPolicy) : SubmitTrace :=
  submitGo att p.baseDelay 0 p.maxAttempts

/-! ## Statistical mean-reversion strategy -/

/-- Trade direction derived from the z-score sign. -/
inductive TradeDirection
  | buySide
  | sellSide
deriving DecidableEq, Repr

/-- Statistical strategy configuration: rolling-window length and z-score
threshold. -/
structure StatConfig where
  windowSize : ℕ
  zThreshold : ℚ
deriving DecidableEq, Repr

/-- Arithmetic mean of a price window. -/
def windowMean (w : List ℚ) : ℚ := w.sum / w.length

/-- Population variance of a price window. -/
def windowVariance (w : List ℚ) : ℚ :=
  ((w.map (fun x => (x - windowMean w) ^ 2)).sum) / w.length

/-- A signal emitted by the statistical strategy: direction plus gross and
net profit percentages. -/
structure StatSignal where
  direction : TradeDirection
  grossProfitPct : ℚ
  netProfitPct : ℚ
deriving DecidableEq, Repr

/-- Modelled from the spec: the statistical mean-reversion generator.  With
a full rolling window it recomputes mean and variance; the trigger
|z| > threshold is embedded squared, as
`(price - mean)^2 > threshold^2 * variance`, to stay in exact rational
arithmetic (z = (price - mean)/stddev).  Direction is sell-side for z > 0
(price above mean) and buy-side for z < 0; gross profit is the percentage
deviation from the mean and net profit deducts both venues' fees; a signal
is emitted only when the window is full, the trigger fires, and net profit
is strictly positive.  Position sizing (which needs |z| itself, hence a
square root) is outside every claim and is not modelled. -/
def generateSignal (cfg : StatConfig) (w : List ℚ) (price : ℚ)
    (feeBuy feeSell : ℚ) : Option StatSignal :=
  if w.length < cfg.windowSize then none
  else
    let m := windowMean w
    if cfg.zThreshold ^ 2 * windowVariance w < (price - m) ^ 2 then
      let gross := (if m < price then price - m else m - price) / m * 100
      let net := gross - feeBuy - feeSell
      if 0 < net then
        some ⟨if m < price then .sellSide else .buySide, gross, net⟩
      else none
    else none

/-! ## Audit/event representation of the API types

The record shapes are embedded from the dashboard type declarations
(`PriceData`, `ArbitrageOpportunity` with string-serialized numeric fields
and optional fields).  The encoder/decoder pair itself is modelled from the
spec: a flat key → value audit record where an absent optional field is
recorded as an explicit null. -/

/-- A value in an audit record: a string, or null for an absent optional
field. -/
inductive AuditValue
  | vstr (s : String)
  | vnull
deriving DecidableEq, Repr

/-- An audit/event record: ordered key-value fields. -/
abbrev AuditRecord := List (String × AuditValue)

/-- Serialize a venue identifier, as in the dashboard union type. -/
def DexType.asString : DexType → String
  | .raydium => "raydium"
  | .orca => "orca"
  | .jupiter => "jupiter"

/-- Parse a venue identifier. -/
def parseDex (s : String) : Option DexType :=
  if s = "raydium" then some .raydium
  else if s = "orca" then some .orca
  else if s = "jupiter" then some .jupiter
  else none

/-- Encode an optional string field: null when absent. -/
def encodeOpt : Option String → AuditValue
  | some s => .vstr s
  | none => .vnull

/-- Read a mandatory string field from an audit record. -/
def getStr (r : AuditRecord) (k : String) : Option String :=
  match r.lookup k with
  | some (.vstr s) => some s
  | _ => none

/-- Read an optional string field from an audit record (null decodes to an
absent field; a missing key is a decode error). -/
def getOptStr (r : AuditRecord) (k : String) : Option (Option String) :=
  match r.lookup k with
  | some (.vstr s) => some (some s)
  | some .vnull => some none
  | none => none

namespace ApiTypes

/-- The dashboard `PriceData` record: venue, pair, bid/ask/mid as decimal
strings, optional 24h volume and liquidity, and a timestamp string. -/
structure PriceData where
  dex : DexType
  pair : TokenPair
  bid : String
  ask : String
  mid_price : String
  volume_24h : Option String
  liquidity : Option String
  timestamp : String
deriving DecidableEq, Repr

/-- The dashboard `ArbitrageOpportunity` record: id, pair, venues, prices
and profit percentages as decimal strings, optional USD estimate,
recommended size and expiry, and the detection timestamp. -/
structure ArbitrageOpportunity where
  id : String
  pair : TokenPair
  buy_dex : DexType
  sell_dex : DexType
  buy_price : String
  sell_price : String
  gross_profit_pct : String
  net_profit_pct : String
  estimated_profit_usd : Option String
  recommended_size : Option String
  detected_at : String
  expired_at : Option String
deriving DecidableEq, Repr

/-- Modelled from the spec: encode a PriceData into the audit/event
representation. -/
def encodePriceData (p : PriceData) : AuditRecord :=
  [("dex", .vstr p.dex.asString),
   ("pair_base", .vstr p.pair.base),
   ("pair_quote", .vstr p.pair.quote),
   ("bid", .vstr p.bid),
   ("ask", .vstr p.ask),
   ("mid_price", .vstr p.mid_price),
   ("volume_24h", encodeOpt p.volume_24h),
   ("liquidity", encodeOpt p.liquidity),
   ("timestamp", .vstr p.timestamp)]

/-- Modelled from the spec: decode a PriceData from the audit/event
representation. -/
def decodePriceData (r : AuditRecord) : Option PriceData := do
  let dexS ← getStr r ("dex")
  let dex ← parseDex dexS
  let base ← getStr r ("pair_base")
  let q ← getStr r ("pair_quote")
  let bid ← getStr r ("bid")
  let ask ← getStr r ("ask")
  let mid ← getStr r ("mid_price")
  let vol ← getOptStr r ("volume_24h")
  let liq ← getOptStr r ("liquidity")
  let ts ← getStr r ("timestamp")
  pure ⟨dex, ⟨base, q⟩, bid, ask, mid, vol, liq, ts⟩

/-- Modelled from the spec: encode an ArbitrageOpportunity into the
audit/event representation. -/
def encodeOpportunity (o : ArbitrageOpportunity) : AuditRecord :=
  [("id", .vstr o.id),
   ("pair_base", .vstr o.pair.base),
   ("pair_quote", .vstr o.pair.quote),
   ("buy_dex", .vstr o.buy_dex.asString),
   ("sell_dex", .vstr o.sell_dex.asString),
   ("buy_price", .vstr o.buy_price),
   ("sell_price", .vstr o.sell_price),
   ("gross_profit_pct", .vstr o.gross_profit_pct),
   ("net_profit_pct", .vstr o.net_profit_pct),
   ("estimated_profit_usd", encodeOpt o.estimated_profit_usd),
   ("recommended_size", encodeOpt o.recommended_size),
   ("detected_at", .vstr o.detected_at),
   ("expired_at", encodeOpt o.expired_at)]

/-- Modelled from the spec: decode an ArbitrageOpportunity from the
audit/event representation. -/
def decodeOpportunity (r : AuditRecord) : Option ArbitrageOpportunity := do
  let i ← getStr r ("id")
  let base ← getStr r ("pair_base")
  let q ← getStr r ("pair_quote")
  let bdS ← getStr r ("buy_dex")
  let bd ← parseDex bdS
  let sdS ← getStr r ("sell_dex")
  let sd ← parseDex sdS
  let bp ← getStr r ("buy_price")
  let sp ← getStr r ("sell_price")
  let gp ← getStr r ("gross_profit_pct")
  let np ← getStr r ("net_profit_pct")
  let eu ← getOptStr r ("estimated_profit_usd")
  let rs ← getOptStr r ("recommended_size")
  let da ← getStr r ("detected_at")
  let ea ← getOptStr r ("expired_at")
  pure ⟨i, ⟨base, q⟩, bd, sd, bp, sp, gp, np, eu, rs, da, ea⟩

end ApiTypes

/-! ## Dashboard API client

Embedded from the dashboard API client source: `fetchApi` wraps a fetch in
try/catch — a non-ok response raises `HTTP {status}: {statusText}` which
the catch turns into `{ success: false, error: message }`, any rejection
value that is an `Error` contributes its message and any other thrown
value contributes "Unknown error"; an ok response returns the parsed JSON
body.  `api.getOpportunities` builds the query string with truthiness
guards on `minProfit` and `limit`. -/

namespace ApiClient

/-- A JavaScript value thrown/rejected inside `fetchApi`'s try block:
either an `Error` instance carrying a message, or any non-`Error` value. -/
inductive JsThrown
  | errorObj (message : String)
  | nonErrorValue
deriving DecidableEq, Repr

/-- The string the catch block extracts:
`error instanceof Error ? error.message : 'Unknown error'`. -/
def JsThrown.caughtMessage : JsThrown → String
  | .errorObj m => m
  | .nonErrorValue => "Unknown error"

/-- The `ApiResponse<T>` shape of the dashboard types. -/
structure ApiResponse (α : Type) where
  success : Bool
  data : Option α
  error : Option String
deriving DecidableEq, Repr

/-- One complete outcome of the underlying `fetch` and body parse: the
fetch promise rejects (network error), or it resolves to a response with
an `ok` flag, status, status text, and — if read — a JSON body that either
parses to an `ApiResponse` or raises. -/
inductive FetchOutcome (α : Type)
  | networkError (e : JsThrown)
  | response (ok : Bool) (status : ℕ) (statusText : String)
      (body : Except JsThrown (ApiResponse α))
deriving Repr

/-- The error message `fetchApi` throws for a non-ok response. -/
def httpErrorMessage (status : ℕ) (statusText : String) : String :=
  ("HTTP ") ++ toString status ++ (": ") ++ statusText

/-- Embedded from the dashboard API client: `fetchApi` never rejects — a
network error or a thrown `HTTP ...` error or a body-parse error is caught
and becomes `{ success: false, error: message }`, and an ok response
returns its parsed body unchanged. -/
def fetchApi {α : Type} (o : FetchOutcome α) : ApiResponse α :=
  match o with
  | .networkError e => ⟨false, none, some e.caughtMessage⟩
  | .response ok status statusText body =>
      if ok then
        match body with
        | .ok r => r
        | .error e => ⟨false, none, some e.caughtMessage⟩
      else ⟨false, none, some (httpErrorMessage status statusText)⟩

/-- The caller-supplied parameters of `api.getOpportunities`
(`undefined` is `none`). -/
structure OpportunitiesParams where
  minProfit : Option ℚ
  limit : Option ℚ
deriving DecidableEq, Repr

/-- JavaScript truthiness of an optional number: `undefined` and `0` are
falsy, every other number is truthy (the embedding has no NaN). -/
def numTruthy : Option ℚ → Bool
  | none => false
  | some x => x != 0

/-- Stands for JavaScript `Number.prototype.toString` in the query
builder. -/
def renderNum (x : ℚ) : String := toString x

/-- Embedded from `api.getOpportunities`: the query parameters, with
`min_profit` and `limit` each added only when the caller's value is
truthy. -/
def opportunitiesQuery (p : OpportunitiesParams) : List (String × String) :=
  (if numTruthy p.minProfit then
      [("min_profit", renderNum (p.minProfit.getD 0))]
    else []) ++
  (if numTruthy p.limit then [("limit", renderNum (p.limit.getD 0))] else [])

/-- Render a query as `k=v` pairs joined by `&`. -/
def renderQuery (q : List (String × String)) : String :=
  String.intercalate ("&") (q.map (fun kv => kv.1 ++ ("=") ++ kv.2))

/-- Embedded from `api.getOpportunities`: the request URL — the query
string is appended after `?` only when it is non-empty. -/
def getOpportunitiesUrl (p : OpportunitiesParams) : String :=
  let qs := renderQuery (opportunitiesQuery p)
  ("/api/opportunities") ++ (if qs = ("") then ("") else ("?") ++ qs)

end ApiClient

/-! ## Theorems -/

/-- C1: for every opportunity and every Risk Gate state in which the
circuit breaker is Open, `evaluate` returns Rejected with reason
"circuit breaker open"; and in the concrete scenario where three
consecutive Failed trade results with max_consecutive_losses = 3 have
opened the breaker, a fourth opportunity evaluated in the same tick is
Rejected with reason "circuit breaker open". -/
theorem c1_breaker_open_always_rejects :
    (∀ (cfg : RiskConfig) (now : ℕ) (opp : ArbOpportunity) (ledger : DailyLedger)
        (r : String) (t : ℕ),
      evaluate cfg now opp ledger (.opened r t) = .rejected ("circuit breaker open")) ∧
    scenarioState.2 = .opened ("swap failed") 7 ∧
    (∀ opp : ArbOpportunity,
      evaluate scenarioCfg 7 opp scenarioState.1 scenarioState.2
        = .rejected ("circuit breaker open")) := by
  have h2 : scenarioState.2 = .opened ("swap failed") 7 := by
    norm_num [scenarioState, scenarioFailures, scenarioCfg, afterResults,
      recordTradeResult]
  exact ⟨fun cfg now opp ledger r t => rfl, h2, fun opp => by rw [h2]; rfl⟩

/-- C2: the circuit breaker state machine.  From Closed, recording a Failed
result opens the breaker exactly when the consecutive-failure count
reaches the configured threshold (daily loss limit not breached); from
Open, the tick check moves to HalfOpen exactly when the cooldown has
elapsed; in HalfOpen exactly one probe is permitted (permitted only at
probe count zero, and no longer after the probe starts); a successful
probe returns the state to Closed and resets the consecutive-failure
counter to zero, while a failed probe returns it to Open with the cooldown
restarted at the current time. -/
theorem c2_breaker_state_machine (cfg : RiskConfig) (now : ℕ)
    (ledger : DailyLedger) (oid : ℕ) (pair : TokenPair) (pnl : ℚ)
    (reason r0 : String) (t0 p : ℕ) :
    (¬ (ledger.realizedPnl + pnl ≤ -cfg.maxDailyLoss) →
      ((recordTradeResult cfg now ledger .closed ⟨oid, pair, .failed reason, pnl⟩).2
          = .opened reason now
        ↔ cfg.maxConsecutiveLosses ≤ ledger.consecutiveLosses + 1)) ∧
    (tickCooldown cfg now (.opened r0 t0) = .halfOpen 0
      ↔ t0 + cfg.cooldownTicks ≤ now) ∧
    (probePermitted (.halfOpen p) = true ↔ p = 0) ∧
    probePermitted (startProbe (.halfOpen p)) = false ∧
    (recordTradeResult cfg now ledger (.halfOpen p)
      ⟨oid, pair, .confirmed, pnl⟩).2 = .closed ∧
    (recordTradeResult cfg now ledger (.halfOpen p)
      ⟨oid, pair, .confirmed, pnl⟩).1.consecutiveLosses = 0 ∧
    (recordTradeResult cfg now ledger (.halfOpen p)
      ⟨oid, pair, .failed reason, pnl⟩).2 = .opened reason now := by
  refine ⟨?_, ?_, ?_, ?_, rfl, rfl, rfl⟩
  · intro hnb
    show (if cfg.maxConsecutiveLosses ≤ ledger.consecutiveLosses + 1
            ∨ ledger.realizedPnl + pnl ≤ -cfg.maxDailyLoss
          then _ else (_, CircuitBreakerState.closed)).2 = _ ↔ _
    split_ifs with h
    · simp only [true_iff]
      rcases h with h | h
      · exact h
      · exact absurd h hnb
    · constructor
      · intro hc
        exact absurd hc (by simp)
      · intro hle
        exact absurd (Or.inl hle) h
  · show (if t0 + cfg.cooldownTicks ≤ now then CircuitBreakerState.halfOpen 0
          else .opened r0 t0) = .halfOpen 0 ↔ _
    split_ifs with h
    · simpa using h
    · simpa using h
  · simp [probePermitted]
  · simp [probePermitted, startProbe]

/-- C2 witness: with threshold 3 and two prior consecutive losses, a third
Failed result opens the breaker at the current tick. -/
theorem c2_breaker_state_machine_witness :
    (recordTradeResult ⟨3, 10, 5, 1000, 100, 1, 10⟩ 7 ⟨0, 2, []⟩ .closed
      ⟨4, solUsdc, .failed ("rpc timeout"), -1⟩).2 = .opened ("rpc timeout") 7 :=
  ((c2_breaker_state_machine ⟨3, 10, 5, 1000, 100, 1, 10⟩ 7 ⟨0, 2, []⟩ 4 solUsdc
      (-1) ("rpc timeout") ("x") 0 0).1 (by norm_num)).mpr (by norm_num)

/-- C4: on the quote set Raydium SOL/USDC 100.1 and Orca SOL/USDC 101.0
with a 0.25% fee on each venue, the detector emits exactly one
opportunity: buy on Raydium, sell on Orca, gross profit 900/1001 %
(≈ 0.90%, within 0.01) and net profit 799/2002 % (≈ 0.40%, within
0.01). -/
theorem c4_scenario_single_spread :
    detectSpreads quarterFee [rayQuote, orcaQuote]
      = [⟨.raydium, .orca, 1001/10, 101, 900/1001, 799/2002⟩] ∧
    |(900 : ℚ)/1001 - 9/10| < 1/100 ∧ |(799 : ℚ)/2002 - 2/5| < 1/100 := by
  refine ⟨?_, by rw [abs_lt]; constructor <;> norm_num,
    by rw [abs_lt]; constructor <;> norm_num⟩
  norm_num [detectSpreads, spreadOpportunity, rayQuote, orcaQuote, solUsdc,
    quarterFee, List.flatMap, List.filterMap]
  simp

/-- C5: whenever the simulated compute-unit consumption exceeds the
per-transaction cap, execution returns Failed("compute unit overflow") and
the transaction is never submitted; in particular for simulated units
1,500,000 against the 1,400,000 cap. -/
theorem c5_cu_overflow_never_submitted :
    (∀ (cap u : ℕ) (sub : TradeOutcome), cap < u →
      validateAndSubmit cap (.simOk u) sub
        = (.failed ("compute unit overflow"), false)) ∧
    validateAndSubmit computeUnitCap (.simOk 1500000) .confirmed
      = (.failed ("compute unit overflow"), false) := by
  constructor
  · intro cap u sub h
    simp [validateAndSubmit, h]
  · decide

/-- C5 witness: the scenario instance of the universally quantified cap
check. -/
theorem c5_cu_overflow_witness :
    validateAndSubmit 1400000 (.simOk 1500000) .simulated
      = (.failed ("compute unit overflow"), false) :=
  c5_cu_overflow_never_submitted.1 1400000 1500000 .simulated (by decide)

/-- Helper: the retry loop never uses more attempts than its remaining
budget. -/
theorem submitGo_attemptsUsed_le (att : ℕ → AttemptOutcome) (base : ℕ) :
    ∀ remaining k, (submitGo att base k remaining).attemptsUsed ≤ remaining := by
  intro remaining
  induction remaining with
  | zero => intro k; simp [submitGo]
  | succ rem ih =>
    intro k
    cases hatt : att k with
    | success =>
      simp only [submitGo, hatt]
      show 1 ≤ rem + 1
      omega
    | failure e =>
      simp only [submitGo, hatt]
      by_cases hr : (e.isRetryable && decide (0 < rem)) = true
      · rw [if_pos hr]
        show (submitGo att base (k + 1) rem).attemptsUsed + 1 ≤ rem + 1
        exact Nat.succ_le_succ (ih (k + 1))
      · rw [if_neg hr]
        show 1 ≤ rem + 1
        omega

/-- Helper: when every attempt fails retryably, the loop spends its whole
budget, surfaces as Failed, and sleeps exponentially growing delays. -/
theorem submitGo_all_retryable (att : ℕ → AttemptOutcome) (base : ℕ)
    (h : ∀ k, ∃ e, att k = .failure e ∧ e.isRetryable = true) :
    ∀ remaining k, 1 ≤ remaining →
      (∃ s, (submitGo att base k remaining).result = .failed s) ∧
      (submitGo att base k remaining).attemptsUsed = remaining ∧
      (submitGo att base k remaining).delays
        = (List.range (remaining - 1)).map (fun j => base * 2 ^ (k + j)) := by
  intro remaining
  induction remaining with
  | zero => intro k h0; omega
  | succ rem ih =>
    intro k _
    obtain ⟨e, hk, hret⟩ := h k
    by_cases h0 : rem = 0
    · subst h0
      refine ⟨⟨e.reasonText, ?_⟩, ?_, ?_⟩ <;> simp [submitGo, hk, hret]
    · obtain ⟨m, rfl⟩ : ∃ m, rem = m + 1 := ⟨rem - 1, by omega⟩
      have hpos : (0 : ℕ) < m + 1 := by omega
      have hc : (e.isRetryable && decide (0 < m + 1)) = true := by
        rw [hret]
        simp
      obtain ⟨⟨s, hs⟩, ha, hd⟩ := ih (k + 1) (by omega)
      simp only [submitGo, hk]
      rw [if_pos hc]
      refine ⟨⟨s, hs⟩, ?_, ?_⟩
      · show (submitGo att base (k + 1) (m + 1)).attemptsUsed + 1 = m + 1 + 1
        omega
      · show base * 2 ^ k :: (submitGo att base (k + 1) (m + 1)).delays
          = (List.range (m + 1 + 1 - 1)).map fun j => base * 2 ^ (k + j)
        have hmap : (List.range (m + 1)).map (fun j => base * 2 ^ (k + j))
            = base * 2 ^ k :: (List.range m).map (fun j => base * 2 ^ (k + 1 + j)) := by
          rw [List.range_succ_eq_map, List.map_cons, List.map_map]
          have h1 : base * 2 ^ (k + 0) = base * 2 ^ k := by norm_num
          have h2 : (List.range m).map ((fun j => base * 2 ^ (k + j)) ∘ Nat.succ)
              = (List.range m).map (fun j => base * 2 ^ (k + 1 + j)) :=
            List.map_congr_left (fun j _ => by
              have hj : k + Nat.succ j = k + 1 + j := by omega
              show base * 2 ^ (k + Nat.succ j) = base * 2 ^ (k + 1 + j)
              rw [hj])
          rw [h2]
          show base * 2 ^ (k + 0) :: _ = _
          rw [h1]
        rw [hd]
        have hm1 : m + 1 - 1 = m := by omega
        have hm2 : m + 1 + 1 - 1 = m + 1 := by omega
        rw [hm1, hm2, hmap]

/-- Helper: a non-retryable failure stops the loop the moment it occurs,
at whatever attempt position: after a prefix of `n` retryable failures,
a non-retryable failure at attempt `k0 + n` makes the run from attempt
`k0` spend exactly `n + 1` attempts, record the failure's reason, and
sleep only the `n` backoff delays of the retryable prefix — however much
budget remains. -/
theorem submitGo_stops_at_nonretryable (att : ℕ → AttemptOutcome) (base : ℕ) :
    ∀ (n k0 rem : ℕ) (e : ErrorKind),
      (∀ j, j < n → ∃ e2, att (k0 + j) = .failure e2 ∧ e2.isRetryable = true) →
      att (k0 + n) = .failure e → e.isRetryable = false → n + 1 ≤ rem →
      submitGo att base k0 rem
        = ⟨.failed (e.reasonText), n + 1,
            (List.range n).map (fun j => base * 2 ^ (k0 + j))⟩ := by
  intro n
  induction n with
  | zero =>
    intro k0 rem e hpre hk hnr hrem
    obtain ⟨m, rfl⟩ : ∃ m, rem = m + 1 := ⟨rem - 1, by omega⟩
    rw [Nat.add_zero] at hk
    simp [submitGo, hk, hnr]
  | succ n ihn =>
    intro k0 rem e hpre hk hnr hrem
    obtain ⟨m, rfl⟩ : ∃ m, rem = m + 1 := ⟨rem - 1, by omega⟩
    obtain ⟨e2, hk0, hret2⟩ := hpre 0 (by omega)
    rw [Nat.add_zero] at hk0
    have hm : (0 : ℕ) < m := by omega
    have hc : (e2.isRetryable && decide (0 < m)) = true := by
      rw [hret2]
      simp [hm]
    have hkshift : att (k0 + 1 + n) = .failure e := by
      have hsh : k0 + 1 + n = k0 + (n + 1) := by omega
      rw [hsh]
      exact hk
    have hpre2 : ∀ j, j < n →
        ∃ e3, att (k0 + 1 + j) = .failure e3 ∧ e3.isRetryable = true := by
      intro j hj
      have hji : k0 + 1 + j = k0 + (j + 1) := by omega
      rw [hji]
      exact hpre (j + 1) (by omega)
    have ht := ihn (k0 + 1) m e hpre2 hkshift hnr (by omega)
    simp only [submitGo, hk0]
    rw [if_pos hc, ht]
    have hmap : (List.range (n + 1)).map (fun j => base * 2 ^ (k0 + j))
        = base * 2 ^ k0 :: (List.range n).map (fun j => base * 2 ^ (k0 + 1 + j)) := by
      rw [List.range_succ_eq_map, List.map_cons, List.map_map]
      have h2 : (List.range n).map ((fun j => base * 2 ^ (k0 + j)) ∘ Nat.succ)
          = (List.range n).map (fun j => base * 2 ^ (k0 + 1 + j)) :=
        List.map_congr_left (fun j _ => by
          have hj : k0 + Nat.succ j = k0 + 1 + j := by omega
          show base * 2 ^ (k0 + Nat.succ j) = base * 2 ^ (k0 + 1 + j)
          rw [hj])
      rw [h2]
      show base * 2 ^ (k0 + 0) :: _ = _
      rw [Nat.add_zero]
    rw [hmap]

/-- C6: the submission retry loop makes at most `max_attempts` attempts;
every non-retryable failure (e.g. insufficient funds, slippage, simulation
failure), at whatever attempt it occurs, terminates the run immediately —
exactly the attempts up to and including the failing one are made, zero
retries follow it, no further backoff is slept, and its classified reason
is recorded; and when every attempt fails retryably the loop performs
exactly `max_attempts` attempts with exponential backoff delays
`base * 2^k` and then surfaces as Failed. -/
theorem c6_retry_policy (att : ℕ → AttemptOutcome) (p : RetryPolicy)
    (hp : 1 ≤ p.maxAttempts) :
    (submitWithRetry att p).attemptsUsed ≤ p.maxAttempts ∧
    (∀ (k : ℕ) (e : ErrorKind),
      (∀ j, j < k → ∃ e2, att j = .failure e2 ∧ e2.isRetryable = true) →
      att k = .failure e → e.isRetryable = false → k < p.maxAttempts →
      submitWithRetry att p
        = ⟨.failed (e.reasonText), k + 1,
            (List.range k).map (fun j => p.baseDelay * 2 ^ j)⟩) ∧
    ((∀ k, ∃ e, att k = .failure e ∧ e.isRetryable = true) →
      (∃ s, (submitWithRetry att p).result = .failed s) ∧
      (submitWithRetry att p).attemptsUsed = p.maxAttempts ∧
      (submitWithRetry att p).delays
        = (List.range (p.maxAttempts - 1)).map (fun j => p.baseDelay * 2 ^ j)) := by
  refine ⟨submitGo_attemptsUsed_le att p.baseDelay p.maxAttempts 0, ?_, ?_⟩
  · intro k e hpre hk hnr hlt
    have hpre0 : ∀ j, j < k →
        ∃ e2, att (0 + j) = .failure e2 ∧ e2.isRetryable = true := by
      intro j hj
      rw [Nat.zero_add]
      exact hpre j hj
    have hk0 : att (0 + k) = .failure e := by
      rw [Nat.zero_add]
      exact hk
    have h := submitGo_stops_at_nonretryable att p.baseDelay k 0 p.maxAttempts e
      hpre0 hk0 hnr (by omega)
    simpa [submitWithRetry] using h
  · intro hall
    have h := submitGo_all_retryable att p.baseDelay hall p.maxAttempts 0 hp
    simpa [submitWithRetry] using h

/-- C6 witness: with a 3-attempt policy, a retryable timeout on attempt 0
followed by a non-retryable insufficient-funds failure on attempt 1 stops
the run right there: two attempts, the recorded reason, and only the one
backoff delay slept before the non-retryable failure. -/
theorem c6_retry_policy_witness :
    submitWithRetry
        (fun k => if k = 0 then AttemptOutcome.failure .timeout
          else AttemptOutcome.failure .insufficientFunds) ⟨3, 100⟩
      = ⟨.failed ("insufficient funds"), 2, [100]⟩ := by
  have h := (c6_retry_policy
      (fun k => if k = 0 then AttemptOutcome.failure .timeout
        else AttemptOutcome.failure .insufficientFunds) ⟨3, 100⟩ (by decide)).2.1
    1 .insufficientFunds
    (fun j hj => by
      have hj0 : j = 0 := by omega
      subst hj0
      exact ⟨.timeout, rfl, rfl⟩)
    rfl rfl (by decide)
  simpa [ErrorKind.reasonText] using h

/-- C7: the statistical generator emits no signal while the rolling window
is not yet full; every emitted signal satisfies: full window, the squared
z-score trigger `(price - mean)^2 > threshold^2 * variance`, gross profit
equal to the percentage deviation from the mean, net profit equal to gross
minus both venues' fees and strictly positive, and direction sell-side
when the price is above the mean, buy-side otherwise; and no signal is
emitted when the net profit would be non-positive. -/
theorem c7_statistical_generator (cfg : StatConfig) (w : List ℚ)
    (price feeBuy feeSell : ℚ) :
    (w.length < cfg.windowSize →
      generateSignal cfg w price feeBuy feeSell = none) ∧
    (∀ sig, generateSignal cfg w price feeBuy feeSell = some sig →
      cfg.windowSize ≤ w.length ∧
      cfg.zThreshold ^ 2 * windowVariance w < (price - windowMean w) ^ 2 ∧
      sig.grossProfitPct = |price - windowMean w| / windowMean w * 100 ∧
      sig.netProfitPct = sig.grossProfitPct - feeBuy - feeSell ∧
      0 < sig.netProfitPct ∧
      sig.direction = (if windowMean w < price then TradeDirection.sellSide
        else TradeDirection.buySide)) ∧
    (¬ 0 < |price - windowMean w| / windowMean w * 100 - feeBuy - feeSell →
      generateSignal cfg w price feeBuy feeSell = none) := by
  have habs : (if windowMean w < price then price - windowMean w
      else windowMean w - price) = |price - windowMean w| := by
    split_ifs with h
    · rw [abs_of_pos (by linarith)]
    · rw [abs_sub_comm, abs_of_nonneg (by linarith)]
  refine ⟨?_, ?_, ?_⟩
  · intro h
    simp [generateSignal, h]
  · intro sig hsig
    simp only [generateSignal] at hsig
    rw [habs] at hsig
    by_cases h1 : w.length < cfg.windowSize
    · rw [if_pos h1] at hsig
      exact absurd hsig (by simp)
    rw [if_neg h1] at hsig
    by_cases h2 : cfg.zThreshold ^ 2 * windowVariance w < (price - windowMean w) ^ 2
    swap
    · rw [if_neg h2] at hsig
      exact absurd hsig (by simp)
    rw [if_pos h2] at hsig
    by_cases h3 : 0 < |price - windowMean w| / windowMean w * 100 - feeBuy - feeSell
    swap
    · rw [if_neg h3] at hsig
      exact absurd hsig (by simp)
    rw [if_pos h3] at hsig
    injection hsig with hsig
    subst hsig
    exact ⟨not_lt.mp h1, h2, rfl, rfl, h3, rfl⟩
  · intro hnet
    simp only [generateSignal]
    rw [habs]
    by_cases h1 : w.length < cfg.windowSize
    · rw [if_pos h1]
    · rw [if_neg h1]
      by_cases h2 : cfg.zThreshold ^ 2 * windowVariance w < (price - windowMean w) ^ 2
      · rw [if_pos h2, if_neg hnet]
      · rw [if_neg h2]

/-- C7 witness: a one-element window is insufficient history for window
size 3; the emitted signal on the full window [100, 102, 98] at price 110
has strictly positive net profit; and at price 100 (net profit −0.5%) no
signal is emitted. -/
theorem c7_statistical_generator_witness :
    generateSignal ⟨3, 2⟩ [100] 110 (1/4) (1/4) = none ∧
    (0 : ℚ) < StatSignal.netProfitPct ⟨.sellSide, 10, 19/2⟩ ∧
    generateSignal ⟨3, 2⟩ [100, 102, 98] 100 (1/4) (1/4) = none :=
  ⟨(c7_statistical_generator ⟨3, 2⟩ [100] 110 (1/4) (1/4)).1 (by norm_num),
   ((c7_statistical_generator ⟨3, 2⟩ [100, 102, 98] 110 (1/4) (1/4)).2.1
     ⟨.sellSide, 10, 19/2⟩ (by norm_num [generateSignal, windowMean,
       windowVariance])).2.2.2.2.1,
   (c7_statistical_generator ⟨3, 2⟩ [100, 102, 98] 100 (1/4) (1/4)).2.2
     (by norm_num [windowMean])⟩

/-- C8: encoding a PriceData or an ArbitrageOpportunity to the audit/event
representation and decoding it back yields the original value, including
the optional fields (volume/liquidity, estimated USD profit, recommended
size, expiry timestamp). -/
theorem c8_audit_round_trip :
    (∀ p : ApiTypes.PriceData,
      ApiTypes.decodePriceData (ApiTypes.encodePriceData p) = some p) ∧
    (∀ o : ApiTypes.ArbitrageOpportunity,
      ApiTypes.decodeOpportunity (ApiTypes.encodeOpportunity o) = some o) := by
  constructor
  · rintro ⟨dex, ⟨base, q⟩, bid, ask, mid, vol, liq, ts⟩
    cases dex <;> cases vol <;> cases liq <;> rfl
  · rintro ⟨i, ⟨base, q⟩, bd, sd, bp, sp, gp, np, eu, rs, da, ea⟩
    cases bd <;> cases sd <;> cases eu <;> cases rs <;> cases ea <;> rfl

/-- C9 counterexample: when the underlying fetch rejects with an `Error`
whose message is the empty string, `fetchApi` returns success = false but
an empty — not non-empty — error string. -/
theorem c9_counterexample_empty_message :
    ApiClient.fetchApi
        (ApiClient.FetchOutcome.networkError (.errorObj ("")) : ApiClient.FetchOutcome Unit)
      = ⟨false, none, some ("")⟩ := rfl

/-- C9 (amended): `fetchApi` is total over fetch outcomes and never
throws; a non-2xx response yields success = false with the non-empty
error string `HTTP {status}: {statusText}`; a network-error rejection
yields success = false with the caught message (the `Error`'s own message,
possibly empty, or "Unknown error" for a non-`Error` value); a 2xx
response whose body parses returns the parsed body unchanged; and a 2xx
response whose body fails to parse yields success = false with the caught
message. -/
theorem c9_fetchApi_total_and_classified {α : Type} (o : ApiClient.FetchOutcome α) :
    (∀ status stext body, o = .response false status stext body →
      ApiClient.fetchApi o
          = ⟨false, none, some (ApiClient.httpErrorMessage status stext)⟩ ∧
        ApiClient.httpErrorMessage status stext ≠ ("")) ∧
    (∀ e, o = .networkError e →
      ApiClient.fetchApi o = ⟨false, none, some e.caughtMessage⟩) ∧
    (∀ status stext r, o = .response true status stext (.ok r) →
      ApiClient.fetchApi o = r) ∧
    (∀ status stext e, o = .response true status stext (.error e) →
      ApiClient.fetchApi o = ⟨false, none, some e.caughtMessage⟩) := by
  refine ⟨?_, ?_, ?_, ?_⟩
  · rintro status stext body rfl
    refine ⟨rfl, ?_⟩
    intro h
    have hlen := congrArg String.length h
    rw [ApiClient.httpErrorMessage] at hlen
    simp only [String.length_append] at hlen
    have h5 : ("HTTP ").length = 5 := rfl
    rw [h5] at hlen
    simp at hlen
  · rintro e rfl
    rfl
  · rintro status stext r rfl
    rfl
  · rintro status stext e rfl
    rfl

/-- C9 witness: the amended classification applied to a concrete 404
response. -/
theorem c9_fetchApi_witness :
    ApiClient.fetchApi
        (ApiClient.FetchOutcome.response false 404 ("Not Found")
          (Except.ok (⟨true, none, none⟩ : ApiClient.ApiResponse Unit)))
      = ⟨false, none, some (ApiClient.httpErrorMessage 404 ("Not Found"))⟩ :=
  ((c9_fetchApi_total_and_classified
      (ApiClient.FetchOutcome.response false 404 ("Not Found")
        (Except.ok (⟨true, none, none⟩ : ApiClient.ApiResponse Unit)))).1
    404 ("Not Found") (Except.ok ⟨true, none, none⟩) rfl).1

/-- C10: `api.getOpportunities` guards its query parameters by JavaScript
truthiness, so `min_profit` (resp. `limit`) appears in the query exactly
when the caller's value is present and non-zero, a caller-supplied 0
produces the same request URL as an absent parameter, and the
"minimum profit 0, limit 0" request URL is the bare unfiltered
endpoint. -/
theorem c10_zero_params_omitted :
    (∀ l, ApiClient.getOpportunitiesUrl ⟨some 0, l⟩
      = ApiClient.getOpportunitiesUrl ⟨none, l⟩) ∧
    (∀ m, ApiClient.getOpportunitiesUrl ⟨m, some 0⟩
      = ApiClient.getOpportunitiesUrl ⟨m, none⟩) ∧
    (∀ m l, ((ApiClient.opportunitiesQuery ⟨m, l⟩).lookup ("min_profit")).isSome
      ↔ ∃ x, m = some x ∧ x ≠ 0) ∧
    (∀ m l, ((ApiClient.opportunitiesQuery ⟨m, l⟩).lookup ("limit")).isSome
      ↔ ∃ x, l = some x ∧ x ≠ 0) ∧
    ApiClient.getOpportunitiesUrl ⟨some 0, some 0⟩ = ("/api/opportunities") := by
  refine ⟨fun l => rfl, ?_, ?_, ?_, rfl⟩
  · intro m
    rcases m with _ | x
    · rfl
    · simp only [ApiClient.getOpportunitiesUrl, ApiClient.opportunitiesQuery,
        ApiClient.numTruthy]
      norm_num
  · intro m l
    rcases m with _ | x
    · simp only [ApiClient.opportunitiesQuery, ApiClient.numTruthy]
      rcases l with _ | y
      · simp
      · by_cases hy : y = 0
        · simp [hy]
        · simp [List.lookup, hy]
    · by_cases hx : x = 0
      · subst hx
        simp only [ApiClient.opportunitiesQuery, ApiClient.numTruthy]
        rcases l with _ | y
        · simp
        · by_cases hy : y = 0
          · simp [hy]
          · simp [List.lookup, hy]
      · simp [ApiClient.opportunitiesQuery, ApiClient.numTruthy, hx, List.lookup]
  · intro m l
    rcases l with _ | y
    · simp only [ApiClient.opportunitiesQuery, ApiClient.numTruthy]
      rcases m with _ | x
      · simp
      · by_cases hx : x = 0
        · simp [hx]
        · simp [List.lookup, hx]
    · by_cases hy : y = 0
      · subst hy
        simp only [ApiClient.opportunitiesQuery, ApiClient.numTruthy]
        rcases m with _ | x
        · simp
        · by_cases hx : x = 0
          · simp [hx]
          · simp [List.lookup, hx]
      · rcases m with _ | x
        · simp [ApiClient.opportunitiesQuery, ApiClient.numTruthy, hy, List.lookup]
        · by_cases hx : x = 0
          · simp [ApiClient.opportunitiesQuery, ApiClient.numTruthy, hx, hy,
              List.lookup]
          · simp [ApiClient.opportunitiesQuery, ApiClient.numTruthy, hx, hy,
              List.lookup]

/-- Helper: how `setPhase` changes `lookup`. -/
theorem lookup_setPhase (s : PipelineState) (oid oid2 : ℕ) (p : OppPhase) :
    (setPhase s oid p).lookup oid2
      = if oid2 = oid then (s.lookup oid2).map (fun _ => p) else s.lookup oid2 := by
  induction s with
  | nil => simp [setPhase]
  | cons hd tl ih =>
    obtain ⟨k, v⟩ := hd
    by_cases hk : k = oid
    · subst hk
      by_cases h2 : oid2 = k
      · subst h2
        simp [setPhase, List.lookup]
      · simp [setPhase, List.lookup, beq_false_of_ne h2, h2, ih]
    · by_cases h2 : oid2 = k
      · subst h2
        have hne : oid2 ≠ oid := hk
        simp [setPhase, hk, List.lookup, hne]
      · simp [setPhase, hk, List.lookup, beq_false_of_ne h2, ih]

/-- Helper: a successful detect step requires an unseen id and prepends its
Detected phase. -/
theorem applyEvent_detect_some {s s1 : PipelineState} {oid : ℕ}
    (h : applyEvent s (.detect oid) = some s1) :
    s.lookup oid = none ∧ s1 = (oid, .detectedPhase) :: s := by
  simp only [applyEvent] at h
  cases hl : s.lookup oid with
  | none =>
    simp only [hl] at h
    exact ⟨rfl, by injection h with h2; exact h2.symm⟩
  | some ph => simp [hl] at h

/-- Helper: a successful decide step requires the Detected phase and
records the decision. -/
theorem applyEvent_decide_some {s s1 : PipelineState} {oid : ℕ} {d : RiskDecision}
    (h : applyEvent s (.decide oid d) = some s1) :
    s.lookup oid = some .detectedPhase ∧ s1 = setPhase s oid (.decidedPhase d) := by
  simp only [applyEvent] at h
  cases hl : s.lookup oid with
  | none => simp [hl] at h
  | some ph =>
    cases ph with
    | detectedPhase =>
      simp only [hl] at h
      exact ⟨rfl, by injection h with h2; exact h2.symm⟩
    | decidedPhase d2 => simp [hl] at h
    | resolvedPhase d2 o2 => simp [hl] at h

/-- Helper: a successful execute step requires a Decided phase whose
decision permits execution, and records the resolution. -/
theorem applyEvent_execute_some {s s1 : PipelineState} {oid : ℕ} {o : TradeOutcome}
    (h : applyEvent s (.execute oid o) = some s1) :
    ∃ d, s.lookup oid = some (.decidedPhase d) ∧ d.allowsExecution = true ∧
      s1 = setPhase s oid (.resolvedPhase d o) := by
  simp only [applyEvent] at h
  cases hl : s.lookup oid with
  | none => simp [hl] at h
  | some ph =>
    cases ph with
    | detectedPhase => simp [hl] at h
    | decidedPhase d =>
      simp only [hl] at h
      by_cases ha : d.allowsExecution = true
      · rw [if_pos ha] at h
        exact ⟨d, rfl, ha, by injection h with h2; exact h2.symm⟩
      · rw [if_neg ha] at h
        exact absurd h (by simp)
    | resolvedPhase d2 o2 => simp [hl] at h

/-- Helper: an event about another opportunity id leaves a lookup
unchanged. -/
theorem applyEvent_lookup_other {s s1 : PipelineState} {e : PipelineEvent} {oid : ℕ}
    (h : applyEvent s e = some s1) (hne : e.oidOf ≠ oid) :
    s1.lookup oid = s.lookup oid := by
  cases e with
  | detect i =>
    obtain ⟨hl, rfl⟩ := applyEvent_detect_some h
    have hio : oid ≠ i := fun hh => hne (by simp [PipelineEvent.oidOf, hh])
    simp [List.lookup, beq_false_of_ne hio]
  | decide i d =>
    obtain ⟨hl, rfl⟩ := applyEvent_decide_some h
    have hio : ¬ oid = i := fun hh => hne (by simp [PipelineEvent.oidOf, hh])
    rw [lookup_setPhase, if_neg hio]
  | execute i o =>
    obtain ⟨d, hl, ha, rfl⟩ := applyEvent_execute_some h
    have hio : ¬ oid = i := fun hh => hne (by simp [PipelineEvent.oidOf, hh])
    rw [lookup_setPhase, if_neg hio]

/-- Helper: a resolved opportunity stays resolved, with the same decision
and outcome, across any further pipeline step. -/
theorem resolved_stable {s s1 : PipelineState} {e : PipelineEvent} {oid : ℕ}
    {d : RiskDecision} {o : TradeOutcome} (h : applyEvent s e = some s1)
    (hr : s.lookup oid = some (.resolvedPhase d o)) :
    s1.lookup oid = some (.resolvedPhase d o) := by
  by_cases hid : e.oidOf = oid
  · exfalso
    cases e with
    | detect i =>
      obtain ⟨hl, _⟩ := applyEvent_detect_some h
      have hio : i = oid := hid
      rw [hio, hr] at hl
      cases hl
    | decide i d2 =>
      obtain ⟨hl, _⟩ := applyEvent_decide_some h
      have hio : i = oid := hid
      rw [hio, hr] at hl
      cases hl
    | execute i o2 =>
      obtain ⟨d2, hl, _, _⟩ := applyEvent_execute_some h
      have hio : i = oid := hid
      rw [hio, hr] at hl
      cases hl
  · rw [applyEvent_lookup_other h hid]
    exact hr

/-- Helper: an opportunity at or past its decision never returns to an
earlier phase. -/
theorem decidedOrResolved_stable {s s1 : PipelineState} {e : PipelineEvent}
    {oid : ℕ} (h : applyEvent s e = some s1)
    (hr : decidedOrResolvedB (s.lookup oid) = true) :
    decidedOrResolvedB (s1.lookup oid) = true := by
  by_cases hid : e.oidOf = oid
  · cases e with
    | detect i =>
      obtain ⟨hl, _⟩ := applyEvent_detect_some h
      have hio : i = oid := hid
      rw [hio] at hl
      rw [hl] at hr
      cases hr
    | decide i d2 =>
      obtain ⟨hl, _⟩ := applyEvent_decide_some h
      have hio : i = oid := hid
      rw [hio] at hl
      rw [hl] at hr
      cases hr
    | execute i o2 =>
      obtain ⟨d2, hl, ha, rfl⟩ := applyEvent_execute_some h
      have hio : i = oid := hid
      subst hio
      rw [lookup_setPhase, if_pos rfl, hl]
      rfl
  · rw [applyEvent_lookup_other h hid]
    exact hr

/-- Helper: inversion of one accepted pipeline step. -/
theorem runFrom_cons_some {s s2 : PipelineState} {e : PipelineEvent}
    {es : List PipelineEvent} (h : runFrom s (e :: es) = some s2) :
    ∃ s1, applyEvent s e = some s1 ∧ runFrom s1 es = some s2 := by
  unfold runFrom at h
  cases ha : applyEvent s e with
  | none => simp [ha] at h
  | some s1 =>
    simp only [ha] at h
    exact ⟨s1, rfl, h⟩

/-- Helper: along any accepted trace, an opportunity already resolved is
never executed again, and an unresolved one is executed at most once. -/
theorem countExec_bound : ∀ (tr : List PipelineEvent) (s s2 : PipelineState)
    (oid : ℕ), runFrom s tr = some s2 →
    countExec tr oid ≤ (if resolvedB (s.lookup oid) = true then 0 else 1) := by
  intro tr
  induction tr with
  | nil =>
    intro s s2 oid h
    simp only [countExec, List.countP_nil]
    exact Nat.zero_le _
  | cons e es ih =>
    intro s s2 oid h
    obtain ⟨s1, ha, hrun⟩ := runFrom_cons_some h
    have hIH := ih s1 s2 oid hrun
    by_cases he : isExecEvent oid e = true
    · cases e with
      | detect i => simp [isExecEvent] at he
      | decide i d => simp [isExecEvent] at he
      | execute i o =>
        have hio : i = oid := by simpa [isExecEvent] using he
        subst hio
        obtain ⟨d, hl, hallow, rfl⟩ := applyEvent_execute_some ha
        have h0 : resolvedB (s.lookup i) = false := by rw [hl]; rfl
        have h1 : resolvedB ((setPhase s i (.resolvedPhase d o)).lookup i)
            = true := by
          rw [lookup_setPhase, if_pos rfl, hl]
          rfl
        rw [h1] at hIH
        have hz : countExec es i = 0 := by simpa using hIH
        have hc : countExec (.execute i o :: es) i = countExec es i + 1 := by
          simp [countExec, List.countP_cons, isExecEvent]
        rw [hc, hz, h0]
        simp
    · have hstep : countExec (e :: es) oid = countExec es oid := by
        simp [countExec, List.countP_cons, he]
      rw [hstep]
      by_cases hres : resolvedB (s.lookup oid) = true
      · obtain ⟨d, o, hro⟩ : ∃ d o, s.lookup oid = some (.resolvedPhase d o) := by
          cases hl : s.lookup oid with
          | none => rw [hl] at hres; cases hres
          | some ph =>
            cases ph with
            | detectedPhase => rw [hl] at hres; cases hres
            | decidedPhase d2 => rw [hl] at hres; cases hres
            | resolvedPhase d2 o2 => exact ⟨d2, o2, rfl⟩
        have h1 : resolvedB (s1.lookup oid) = true := by
          rw [resolved_stable ha hro]
          rfl
        rw [h1] at hIH
        rw [hres]
        exact hIH
      · rw [if_neg hres]
        calc countExec es oid ≤ _ := hIH
          _ ≤ 1 := by split <;> omega

/-- Helper: along any accepted trace, an opportunity at or past its
decision is never decided again, and one before it is decided at most
once. -/
theorem countDecide_bound : ∀ (tr : List PipelineEvent) (s s2 : PipelineState)
    (oid : ℕ), runFrom s tr = some s2 →
    countDecide tr oid
      ≤ (if decidedOrResolvedB (s.lookup oid) = true then 0 else 1) := by
  intro tr
  induction tr with
  | nil =>
    intro s s2 oid h
    simp only [countDecide, List.countP_nil]
    exact Nat.zero_le _
  | cons e es ih =>
    intro s s2 oid h
    obtain ⟨s1, ha, hrun⟩ := runFrom_cons_some h
    have hIH := ih s1 s2 oid hrun
    by_cases he : isDecideEvent oid e = true
    · cases e with
      | detect i => simp [isDecideEvent] at he
      | execute i o => simp [isDecideEvent] at he
      | decide i d =>
        have hio : i = oid := by simpa [isDecideEvent] using he
        subst hio
        obtain ⟨hl, rfl⟩ := applyEvent_decide_some ha
        have h0 : decidedOrResolvedB (s.lookup i) = false := by rw [hl]; rfl
        have h1 : decidedOrResolvedB
            ((setPhase s i (.decidedPhase d)).lookup i) = true := by
          rw [lookup_setPhase, if_pos rfl, hl]
          rfl
        rw [h1] at hIH
        have hz : countDecide es i = 0 := by simpa using hIH
        have hc : countDecide (.decide i d :: es) i = countDecide es i + 1 := by
          simp [countDecide, List.countP_cons, isDecideEvent]
        rw [hc, hz, h0]
        simp
    · have hstep : countDecide (e :: es) oid = countDecide es oid := by
        simp [countDecide, List.countP_cons, he]
      rw [hstep]
      by_cases hres : decidedOrResolvedB (s.lookup oid) = true
      · have h1 : decidedOrResolvedB (s1.lookup oid) = true :=
          decidedOrResolved_stable ha hres
        rw [h1] at hIH
        rw [hres]
        exact hIH
      · rw [if_neg hres]
        calc countDecide es oid ≤ _ := hIH
          _ ≤ 1 := by split <;> omega

/-- Helper: every execution in an accepted trace is preceded (in the trace,
or in the starting state) by a decision that permits execution. -/
theorem exec_needs_decision : ∀ (tr : List PipelineEvent) (s s2 : PipelineState),
    runFrom s tr = some s2 →
    ∀ (pre : List PipelineEvent) (oid : ℕ) (o : TradeOutcome)
      (post : List PipelineEvent),
      tr = pre ++ .execute oid o :: post →
      (∃ d, .decide oid d ∈ pre ∧ d.allowsExecution = true) ∨
      (∃ d, s.lookup oid = some (.decidedPhase d) ∧ d.allowsExecution = true) := by
  intro tr
  induction tr with
  | nil =>
    intro s s2 h pre oid o post hsplit
    exact absurd hsplit (by simp)
  | cons e es ih =>
    intro s s2 h pre oid o post hsplit
    obtain ⟨s1, ha, hrun⟩ := runFrom_cons_some h
    cases pre with
    | nil =>
      simp only [List.nil_append] at hsplit
      injection hsplit with he hes
      subst he
      obtain ⟨d, hl, hallow, _⟩ := applyEvent_execute_some ha
      exact Or.inr ⟨d, hl, hallow⟩
    | cons p pre2 =>
      simp only [List.cons_append] at hsplit
      injection hsplit with he hes
      subst he
      rcases ih s1 s2 hrun pre2 oid o post hes with ⟨d, hmem, hall⟩ | ⟨d, hl1, hall⟩
      · exact Or.inl ⟨d, List.mem_cons_of_mem _ hmem, hall⟩
      · by_cases hid : e.oidOf = oid
        · cases e with
          | detect i =>
            obtain ⟨hl, rfl⟩ := applyEvent_detect_some ha
            have hio : i = oid := hid
            subst hio
            have hlook : ((i, OppPhase.detectedPhase) :: s).lookup i
                = some OppPhase.detectedPhase := by simp [List.lookup]
            rw [hlook] at hl1
            exact absurd hl1 (by simp)
          | decide i d2 =>
            obtain ⟨hl, rfl⟩ := applyEvent_decide_some ha
            have hio : i = oid := hid
            subst hio
            have hlook : (setPhase s i (.decidedPhase d2)).lookup i
                = (s.lookup i).map (fun _ => OppPhase.decidedPhase d2) := by
              rw [lookup_setPhase, if_pos rfl]
            rw [hlook, hl] at hl1
            injection hl1 with h3
            injection h3 with h4
            subst h4
            exact Or.inl ⟨d2, List.mem_cons_self _ _, hall⟩
          | execute i o2 =>
            obtain ⟨d2, hl, hall2, rfl⟩ := applyEvent_execute_some ha
            have hio : i = oid := hid
            subst hio
            have hlook : (setPhase s i (.resolvedPhase d2 o2)).lookup i
                = (s.lookup i).map (fun _ => OppPhase.resolvedPhase d2 o2) := by
              rw [lookup_setPhase, if_pos rfl]
            rw [hlook, hl] at hl1
            exact absurd hl1 (by simp)
        · rw [applyEvent_lookup_other ha hid] at hl1
          exact Or.inr ⟨d, hl1, hall⟩

/-- Helper: every decision in an accepted trace is preceded (in the trace,
or in the starting state) by the opportunity's detection. -/
theorem decide_needs_detect : ∀ (tr : List PipelineEvent) (s s2 : PipelineState),
    runFrom s tr = some s2 →
    ∀ (pre : List PipelineEvent) (oid : ℕ) (d : RiskDecision)
      (post : List PipelineEvent),
      tr = pre ++ .decide oid d :: post →
      (.detect oid ∈ pre) ∨ s.lookup oid = some .detectedPhase := by
  intro tr
  induction tr with
  | nil =>
    intro s s2 h pre oid d post hsplit
    exact absurd hsplit (by simp)
  | cons e es ih =>
    intro s s2 h pre oid d post hsplit
    obtain ⟨s1, ha, hrun⟩ := runFrom_cons_some h
    cases pre with
    | nil =>
      simp only [List.nil_append] at hsplit
      injection hsplit with he hes
      subst he
      obtain ⟨hl, _⟩ := applyEvent_decide_some ha
      exact Or.inr hl
    | cons p pre2 =>
      simp only [List.cons_append] at hsplit
      injection hsplit with he hes
      subst he
      rcases ih s1 s2 hrun pre2 oid d post hes with hmem | hl1
      · exact Or.inl (List.mem_cons_of_mem _ hmem)
      · by_cases hid : e.oidOf = oid
        · cases e with
          | detect i =>
            have hio : i = oid := hid
            subst hio
            exact Or.inl (List.mem_cons_self _ _)
          | decide i d2 =>
            obtain ⟨hl, rfl⟩ := applyEvent_decide_some ha
            have hio : i = oid := hid
            subst hio
            have hlook : (setPhase s i (.decidedPhase d2)).lookup i
                = (s.lookup i).map (fun _ => OppPhase.decidedPhase d2) := by
              rw [lookup_setPhase, if_pos rfl]
            rw [hlook, hl] at hl1
            exact absurd hl1 (by simp)
          | execute i o2 =>
            obtain ⟨d2, hl, hall2, rfl⟩ := applyEvent_execute_some ha
            have hio : i = oid := hid
            subst hio
            have hlook : (setPhase s i (.resolvedPhase d2 o2)).lookup i
                = (s.lookup i).map (fun _ => OppPhase.resolvedPhase d2 o2) := by
              rw [lookup_setPhase, if_pos rfl]
            rw [hlook, hl] at hl1
            exact absurd hl1 (by simp)
        · rw [applyEvent_lookup_other ha hid] at hl1
          exact Or.inr hl1

/-- C3: in every accepted pipeline trace from the empty initial state,
each opportunity is decided at most once and executed at most once, every
execution is preceded in the trace by a decision that was Approved or
Reduced, and every decision is preceded by the opportunity's detection —
so the lifecycle Detected → one RiskDecision → at most one terminal
outcome holds, no opportunity is executed twice, and no execution occurs
without a prior Approved/Reduced decision. -/
theorem c3_lifecycle (tr : List PipelineEvent) (s2 : PipelineState)
    (h : runPipeline tr = some s2) (oid : ℕ) :
    countExec tr oid ≤ 1 ∧ countDecide tr oid ≤ 1 ∧
    (∀ pre o post, tr = pre ++ .execute oid o :: post →
      ∃ d, .decide oid d ∈ pre ∧ d.allowsExecution = true) ∧
    (∀ pre d post, tr = pre ++ .decide oid d :: post → .detect oid ∈ pre) := by
  have hrun : runFrom [] tr = some s2 := h
  refine ⟨?_, ?_, ?_, ?_⟩
  · have hb := countExec_bound tr [] s2 oid hrun
    simpa [resolvedB] using hb
  · have hb := countDecide_bound tr [] s2 oid hrun
    simpa [decidedOrResolvedB] using hb
  · intro pre o post hsplit
    rcases exec_needs_decision tr [] s2 hrun pre oid o post hsplit with
      h1 | ⟨d, hl, _⟩
    · exact h1
    · exact absurd hl (by simp)
  · intro pre d post hsplit
    rcases decide_needs_detect tr [] s2 hrun pre oid d post hsplit with h1 | hl
    · exact h1
    · exact absurd hl (by simp)

/-- C3 witness: the demonstration trace (detect, approve, execute one
opportunity) is accepted and satisfies the at-most-once bounds. -/
theorem c3_lifecycle_witness :
    countExec demoTrace 1 ≤ 1 ∧ countDecide demoTrace 1 ≤ 1 :=
  ⟨(c3_lifecycle demoTrace demoFinal rfl 1).1,
   (c3_lifecycle demoTrace demoFinal rfl 1).2.1⟩

end Arb
